import Mathlib

/-!
Verification development for the binary codecs of the live2d-updater
repository: the AFS2 archive reader and the UTF table reader of the ACB
path (src/utils/acb.py), the simplified UTF reader, mask derivation and
video masking of the USM path (src/utils/usm.py), and the streamed-curve
decoder, motion3 segment classification and moc3 parameter-id resolver of
the Live2D path (src/utils/live2d.py).

Modelling conventions: Python byte buffers are lists of naturals (one per
byte); machine integers are Nat/Int with explicit masking where the source
masks; Python floats are an exact tagged model (finite rationals plus
signed infinities and nan) whose arithmetic is exact where the source
rounds in binary64 — all concrete inputs used in theorems are chosen so
that every branch decision agrees with the source; fallible reads return
Option, with none standing for a raised Python exception.
-/

namespace SLU

/-- A byte buffer: one natural number (0..255) per byte. -/
abbrev Bytes := List Nat

/-- Read exactly n bytes at pos; none when the buffer is too short
(struct.unpack raises on a short read). -/
def readN (buf : Bytes) (pos n : Nat) : Option Bytes :=
  let s := (buf.drop pos).take n
  if s.length = n then some s else none

/-- Big-endian integer value of a byte run. -/
def beVal (l : Bytes) : Nat := l.foldl (fun acc b => acc * 256 + b) 0

/-- Little-endian integer value of a byte run. -/
def leVal (l : Bytes) : Nat := l.reverse.foldl (fun acc b => acc * 256 + b) 0

/-- Read an n-byte big-endian unsigned integer. -/
def readBE (buf : Bytes) (pos n : Nat) : Option Nat := (readN buf pos n).map beVal

/-- Read an n-byte little-endian unsigned integer. -/
def readLE (buf : Bytes) (pos n : Nat) : Option Nat := (readN buf pos n).map leVal

/-- Reinterpret an unsigned w-byte value as two's-complement signed. -/
def toSigned (w v : Nat) : Int :=
  if v < 2 ^ (8 * w - 1) then (v : Int) else (v : Int) - 2 ^ (8 * w)

/-- Bytes of a NUL-terminated run starting at pos; none when no NUL occurs
before the end of the buffer (R.string0 raises an EOF exception there, and
BinaryStream.readStringToNull never terminates). -/
def string0At (buf : Bytes) (pos : Nat) : Option Bytes :=
  if (buf.drop pos).contains 0 then some ((buf.drop pos).takeWhile (· ≠ 0))
  else none

/-- Read a list of count fixed-width little-endian unsigned integers. -/
def readLEList (buf : Bytes) (pos w : Nat) : Nat → Option (List Nat)
  | 0 => some []
  | k + 1 => do
    let v ← readLE buf pos w
    let rest ← readLEList buf (pos + w) w k
    pure (v :: rest)

/-! ## AFS2 archive reader (acb.py, class AFSArchive) -/

/-- Entry of an AFS2 archive (afs2_file_ent_t).  The size field is an Int:
the source computes it as a difference that Python would keep negative. -/
structure Afs2Ent where
  cueId : Nat
  offset : Nat
  size : Int
deriving Repr, DecidableEq

/-- Parsed AFS2 archive (class AFSArchive): alignment, offset width and
mask, entry list, and the backing buffer. -/
structure Afs2Archive where
  alignment : Nat
  offsetSize : Nat
  offsetMask : Nat
  files : List Afs2Ent
  src : Bytes
deriving Repr, DecidableEq

/-- The align closure of acb.py: round number up to the next multiple of n
(math.ceil over the division).  The parser guards n = 0, where Python
raises ZeroDivisionError. -/
def align (n number : Nat) : Nat := ((number + n - 1) / n) * n

/-- AFSArchive.create_file_entries after the two bulk reads: mask each raw
offset, align every masked offset up, and compute each length as the NEXT
MASKED-BUT-UNALIGNED offset minus the current aligned offset
(offsets_for_length_calculating = unaligned_offs[1:] in the source). -/
def mkFileEntries (alignment offsetMask : Nat) (cueIds rawOffs : List Nat) :
    List Afs2Ent :=
  let unaligned := rawOffs.map (fun x => x &&& offsetMask)
  let aligned := unaligned.map (align alignment)
  let lengths := (aligned.zip unaligned.tail).map
    (fun p => (p.2 : Int) - (p.1 : Int))
  (cueIds.zip (aligned.zip lengths)).map (fun p => ⟨p.1, p.2.1, p.2.2⟩)

/-- AFSArchive.__init__: parse an AFS2 archive from a byte buffer.  none
models a raised exception (bad magic, unsupported field widths, zero
alignment, short read during unpack). -/
def afsParse (buf : Bytes) : Option Afs2Archive := do
  let magic ← readBE buf 0 4
  if magic ≠ 0x41465332 then none else
  let version ← readN buf 4 4
  let fileCount ← readLE buf 8 4
  let alignment ← readLE buf 12 4
  let cueIdSize := version.getD 2 0
  let offsetSize := version.getD 1 0
  let offsetMask := 2 ^ (8 * offsetSize) - 1
  if ¬(cueIdSize = 2 ∨ cueIdSize = 4) then none else
  if ¬(offsetSize = 2 ∨ offsetSize = 4) then none else
  if alignment = 0 then none else
  let cueIds ← readLEList buf 0x10 cueIdSize fileCount
  let rawOffs ← readLEList buf (0x10 + cueIdSize * fileCount) offsetSize
    (fileCount + 1)
  pure ⟨alignment, offsetSize, offsetMask,
    mkFileEntries alignment offsetMask cueIds rawOffs, buf⟩

/-- AFSArchive.file_data: src.bytes(ent.size, at=ent.offset).  BytesIO.read
with a nonnegative size returns the available bytes, possibly fewer than
requested; a negative size reads to the end of the buffer. -/
def fileData (ar : Afs2Archive) (ent : Afs2Ent) : Bytes :=
  if ent.size < 0 then ar.src.drop ent.offset
  else (ar.src.drop ent.offset).take ent.size.toNat

/-- Failure modes of file_data_for_cue_id: the explicit ValueError when the
id is absent, and the IndexError Python raises evaluating self.files[0] on
an archive without entries. -/
inductive AfsLookupErr where
  | notFound
  | indexError
deriving Repr, DecidableEq

/-- AFSArchive.file_data_for_cue_id: data of the first entry whose cue id
matches exactly; otherwise the first entry when its cue id is 0; otherwise
an error. -/
def fileDataForCueId (ar : Afs2Archive) (cueId : Nat) :
    Except AfsLookupErr Bytes :=
  match ar.files.find? (fun f => f.cueId == cueId) with
  | some f => .ok (fileData ar f)
  | none =>
    match ar.files with
    | [] => .error .indexError
    | f0 :: _ =>
      if f0.cueId = 0 then .ok (fileData ar f0) else .error .notFound

/-! ## ACB track-name disambiguation (acb.py, TrackList.__init__) -/

/-- Resolved track record (track_t). -/
structure TrackT where
  cueId : Nat
  name : String
  wavId : Int
  encType : Int
  isStream : Int
  streamAwbId : Int
deriving Repr, DecidableEq

/-- Name disambiguation step of TrackList.__init__ (both the sequenced and
the flat copy, acb.py lines 409-419 and 460-470): when the resolved display
name is already used by an earlier track, append -{wav_id}, or -{wav_id+1}
when that variant is also already used. -/
def disambiguate (tracks : List TrackT) (name : String) (wavId : Int) :
    String :=
  if tracks.any (fun t => t.name == name) then
    if tracks.any (fun t => t.name == name ++ "-" ++ toString wavId)
    then name ++ "-" ++ toString (wavId + 1)
    else name ++ "-" ++ toString wavId
  else name

/-- The 0x07D0 track-append loop restricted to its naming effect: each
resolved (display name, wav id) pair appends one track whose stored name
passes through disambiguate against the tracks appended so far.  The other
track_t fields do not influence naming and are filled with fixed values. -/
def resolveTracks (pairs : List (String × Int)) : List TrackT :=
  pairs.foldl
    (fun acc p => acc ++ [⟨0, disambiguate acc p.1 p.2, p.2, 2, 0, -1⟩]) []

/-! ## USM mask derivation and video masking (usm.py) -/

/-- One byte of a Python integer expression: & 0xFF on a Python int is
arithmetic modulo 256, also for negative values. -/
def byteOf (z : Int) : Nat := (z.emod 256).toNat

/-- Body of get_mask after the key split: builds the 32-byte working table
t by the fixed sequence of byte-wise operations of usm.py lines 145-177,
then derives (vmask1, vmask2) and amask. -/
def getMaskCore (key1 key2 : Nat) : (List Nat × List Nat) × List Nat :=
  let t00 := key1 &&& 0xFF
  let t01 := (key1 >>> 8) &&& 0xFF
  let t02 := (key1 >>> 16) &&& 0xFF
  let t03 := byteOf (((key1 >>> 24) &&& 0xFF : Nat) - 0x34)
  let t04 := byteOf ((key2 &&& 0xF : Nat) + 0xF9)
  let t05 := ((key2 >>> 8) &&& 0xFF) ^^^ 0x13
  let t06 := byteOf (((key2 >>> 16) &&& 0xFF : Nat) + 0x61)
  let t07 := t00 ^^^ 0xFF
  let t08 := byteOf ((t02 : Int) + t01)
  let t09 := byteOf ((t01 : Int) - t07)
  let t0A := t02 ^^^ 0xFF
  let t0B := t01 ^^^ 0xFF
  let t0C := byteOf ((t0B : Int) + t09)
  let t0D := byteOf ((t08 : Int) - t03)
  let t0E := t0D ^^^ 0xFF
  let t0F := byteOf ((t0A : Int) - t0B)
  let t10 := byteOf ((t08 : Int) - t0F)
  let t11 := t10 ^^^ t07
  let t12 := t0F ^^^ 0xFF
  let t13 := t03 ^^^ 0x10
  let t14 := byteOf ((t04 : Int) - 0x32)
  let t15 := byteOf ((t05 : Int) + 0xED)
  let t16 := t06 ^^^ 0xF3
  let t17 := byteOf ((t13 : Int) - t0F)
  let t18 := byteOf ((t15 : Int) + t07)
  let t19 := byteOf (0x21 - (t13 : Int))
  let t1A := t14 ^^^ t17
  let t1B := byteOf ((t16 : Int) + t16)
  let t1C := byteOf ((t17 : Int) + 0x44)
  let t1D := byteOf ((t03 : Int) + t04)
  let t1E := byteOf ((t05 : Int) - t16)
  let t1F := (t1D ^^^ t13) &&& 0xFF
  let t := [t00, t01, t02, t03, t04, t05, t06, t07,
            t08, t09, t0A, t0B, t0C, t0D, t0E, t0F,
            t10, t11, t12, t13, t14, t15, t16, t17,
            t18, t19, t1A, t1B, t1C, t1D, t1E, t1F]
  let t2 : List Nat := [0x55, 0x52, 0x55, 0x43]
  let vmask1 := t
  let vmask2 := t.map (fun ti => ti ^^^ 0xFF)
  let amask := (List.range 0x20).map (fun i =>
    if i &&& 1 = 1 then t2.getD ((i >>> 1) &&& 3) 0
    else (t.getD i 0) ^^^ 0xFF)
  ((vmask1, vmask2), amask)

/-- get_mask of usm.py: split the 128-bit key into its low 32 bits and
bits 64..95, then derive the mask tables from those two halves alone. -/
def getMask (key : Nat) : (List Nat × List Nat) × List Nat :=
  getMaskCore (key &&& 0xFFFFFFFF) ((key >>> 64) &&& 0xFFFFFFFF)

/-- First pass of mask_video (usm.py lines 198-201): unmask bytes
[0x100, size) with a feedback mask.  Arguments: static table vmask2,
current loop index i, remaining step count, content, mutable mask. -/
def mvPass1 (vmask2 : List Nat) : Nat → Nat → List Nat → List Nat →
    List Nat × List Nat
  | _, 0, c, m => (c, m)
  | i, n + 1, c, m =>
    let idx := 0x40 + i
    let mi := i &&& 0x1F
    let b := (c.getD idx 0) ^^^ (m.getD mi 0)
    let c2 := c.set idx b
    let m2 := m.set mi (b ^^^ (vmask2.getD mi 0))
    mvPass1 vmask2 (i + 1) n c2 m2

/-- Second pass of mask_video (usm.py lines 203-206): unmask the first
0x100 payload bytes with a mask perturbed by the already-decrypted bytes
at 0x100 onward. -/
def mvPass2 : Nat → Nat → List Nat → List Nat → List Nat × List Nat
  | _, 0, c, m => (c, m)
  | i, n + 1, c, m =>
    let mi := i &&& 0x1F
    let m2 := m.set mi ((m.getD mi 0) ^^^ (c.getD (0x100 + 0x40 + i) 0))
    let c2 := c.set (0x40 + i) ((c.getD (0x40 + i) 0) ^^^ (m2.getD mi 0))
    mvPass2 (i + 1) n c2 m2

/-- mask_video of usm.py: with payload size = len(content) - 0x40 (an int
that may be negative), transform only when size >= 0x200; otherwise the
content is returned unchanged. -/
def maskVideo (content : List Nat) (vmask : List Nat × List Nat) :
    List Nat :=
  if (0x200 : Int) ≤ (content.length : Int) - 0x40 then
    let size := content.length - 0x40
    let p1 := mvPass1 vmask.2 0x100 (size - 0x100) content vmask.2
    let p2 := mvPass2 0 0x100 p1.1 vmask.1
    p2.1
  else content

/-- The @SFV data-chunk step of extract_usm (usm.py lines 318-323): the
payload is passed through mask_video exactly when the two low data-type
bits are 0 and a mask key was supplied, and written out unchanged
otherwise. -/
def sfvChunkOut (content : List Nat) (dataType : Nat)
    (vmaskOpt : Option (List Nat × List Nat)) : List Nat :=
  if dataType = 0 then
    match vmaskOpt with
    | some vm => maskVideo content vm
    | none => content
  else content

/-! ## Exact model of Python floats

Python floats are modelled as finite rationals plus signed infinities and
nan.  Arithmetic on finite values is exact where CPython rounds in
binary64; every concrete input used in a theorem is chosen so that all
branch decisions (equality tests and comparisons against the 1e-4 and 0.01
thresholds) agree with the source.  Literals such as 0.01 denote the exact
rational. -/

inductive F where
  | fin (q : ℚ)
  | inf (neg : Bool)
  | nan
deriving Repr, DecidableEq

/-- IEEE equality as used by the == operator: nan compares unequal to
everything, including itself. -/
def feq : F → F → Bool
  | .fin a, .fin b => a == b
  | .inf a, .inf b => a == b
  | _, _ => false

/-- IEEE less-than: any comparison involving nan is false. -/
def flt : F → F → Bool
  | .fin a, .fin b => decide (a < b)
  | .fin _, .inf s => !s
  | .inf s, .fin _ => s
  | .inf s1, .inf s2 => s1 && !s2
  | _, _ => false

/-- IEEE addition on the model. -/
def fadd : F → F → F
  | .fin a, .fin b => .fin (a + b)
  | .fin _, .inf s => .inf s
  | .inf s, .fin _ => .inf s
  | .inf s1, .inf s2 => if s1 = s2 then .inf s1 else .nan
  | _, _ => .nan

/-- IEEE negation. -/
def fneg : F → F
  | .fin a => .fin (-a)
  | .inf s => .inf (!s)
  | .nan => .nan

/-- IEEE subtraction. -/
def fsub (a b : F) : F := fadd a (fneg b)

/-- IEEE multiplication; 0 times an infinity is nan. -/
def fmul : F → F → F
  | .fin a, .fin b => .fin (a * b)
  | .fin a, .inf s => if a = 0 then .nan else .inf (xor (decide (a < 0)) s)
  | .inf s, .fin a => if a = 0 then .nan else .inf (xor (decide (a < 0)) s)
  | .inf s1, .inf s2 => .inf (xor s1 s2)
  | _, _ => .nan

/-- Division.  A zero finite divisor raises ZeroDivisionError in Python;
nan stands for that raised exception here, and no theorem below evaluates
such a division. -/
def fdiv : F → F → F
  | .fin a, .fin b => if b = 0 then .nan else .fin (a / b)
  | .fin _, .inf _ => .fin 0
  | .inf s, .fin a => if a = 0 then .nan else .inf (xor s (decide (a < 0)))
  | .inf _, .inf _ => .nan
  | _, _ => .nan

/-- Absolute value. -/
def fabs : F → F
  | .fin a => .fin |a|
  | .inf _ => .inf false
  | .nan => .nan

/-- Python max(a, b): b when b > a, else a (so nan in the second position
is never selected, and a nan first argument is returned). -/
def fmax (a b : F) : F := if flt a b then b else a

/-- Exact value of an IEEE-754 binary32 bit pattern. -/
def decodeF32 (b : Nat) : F :=
  let s := (b >>> 31) &&& 1
  let e := (b >>> 23) &&& 0xFF
  let m := b &&& 0x7FFFFF
  if e = 255 then (if m = 0 then .inf (s = 1) else .nan)
  else
    let sign : ℚ := if s = 1 then -1 else 1
    if e = 0 then .fin (sign * (m : ℚ) / (2 ^ 149 : ℚ))
    else .fin (sign * ((2 ^ 23 + m : Nat) : ℚ) *
      (if 150 ≤ e then ((2 : ℚ) ^ (e - 150)) else 1 / (2 : ℚ) ^ (150 - e)))

/-! ## Live2D streamed-curve decoder (live2d.py) -/

/-- StreamedCurveKey: index, three coefficients, outSlope = coeff[2],
value, and inSlope initialized to 0. -/
structure SCKey where
  index : Nat
  coeff : List F
  outSlope : F
  value : F
  inSlope : F
deriving Repr, DecidableEq

/-- One frame of the streamed clip: a time and its key list. -/
structure SFrame where
  time : F
  keyList : List SCKey
deriving Repr, DecidableEq

/-- StreamedCurveKey.__init__ from five 32-bit words (the BinaryStream
reads of index, three coefficients, and value are all 4-byte reads of the
word-packed buffer, so each read consumes exactly one source word). -/
def parseSCKey : List Nat → Option (SCKey × List Nat)
  | i :: c0 :: c1 :: c2 :: v :: rest =>
    some (⟨i, [decodeF32 c0, decodeF32 c1, decodeF32 c2],
           decodeF32 c2, decodeF32 v, .fin 0⟩, rest)
  | _ => none

/-- StreamedCurveKey.__init__ as a pure function of the five words it
consumes. -/
def keyFromWords (l : List Nat) : SCKey :=
  ⟨l.getD 0 0,
   [decodeF32 (l.getD 1 0), decodeF32 (l.getD 2 0), decodeF32 (l.getD 3 0)],
   decodeF32 (l.getD 3 0), decodeF32 (l.getD 4 0), .fin 0⟩

/-- StreamedCurveKey.calc_next_in_slope: +infinity when all three
coefficients equal 0, otherwise the cubic-Hermite back-solve with dx
clamped below by 0.0001. -/
def calcNextInSlope (self : SCKey) (dx : F) (rhs : SCKey) : F :=
  if feq (self.coeff.getD 0 .nan) (.fin 0) &&
     feq (self.coeff.getD 1 .nan) (.fin 0) &&
     feq (self.coeff.getD 2 .nan) (.fin 0) then .inf false
  else
    let dx2 := fmax dx (.fin (1 / 10000))
    let dy := fsub rhs.value self.value
    let length := fdiv (.fin 1) (fmul dx2 dx2)
    let d1 := fmul self.outSlope dx2
    let d2 := fsub (fsub (fsub (fadd (fadd dy dy) dy) d1) d1)
                   (fdiv (self.coeff.getD 1 .nan) length)
    fdiv d2 dx2

/-- The frame-reading loop of process_streamed_clip: read a time word and
a key-count word, then that many 5-word key records; frames with a
negative time are dropped.  none models a struct.unpack error on an
exhausted stream. -/
def parseFrames : List Nat → Option (List SFrame)
  | [] => some []
  | [_] => none
  | t :: n :: rest =>
    if 5 * n ≤ rest.length then
      let keys := (List.range n).map (fun i => keyFromWords (rest.drop (5 * i)))
      match parseFrames (rest.drop (5 * n)) with
      | none => none
      | some frames =>
        if flt (decodeF32 t) (.fin 0) then some frames
        else some (⟨decodeF32 t, keys⟩ :: frames)
    else none
termination_by ws => ws.length
decreasing_by
  simp only [List.length_drop, List.length_cons]
  omega

/-- The backward scan of process_streamed_clip lines 119-129: the counter
argument runs through frame indices k-1, k-2, ..., 1 (range(k-1, 0, -1)
never visits frame 0) and stops at the first frame whose key list contains
a key with the same index; tk is the time of the frame being updated. -/
def scanPrev (frames : List SFrame) (tk : F) (ck : SCKey) : Nat → F
  | 0 => ck.inSlope
  | fI + 1 =>
    let preFrame := frames.getD (fI + 1) ⟨.fin 0, []⟩
    match preFrame.keyList.find? (fun x => x.index == ck.index) with
    | some pk => calcNextInSlope pk (fsub tk preFrame.time) ck
    | none => scanPrev frames tk ck fI

/-- The in-slope back-fill pass of process_streamed_clip: frames 0, 1 and
the last frame are left alone; every key of every other frame k gets the
inSlope produced by the backward scan from k-1.  The Python loop mutates
inSlope in place, but the scan only ever reads value/outSlope/coeff of
earlier keys, so mapping over the original frame list is faithful. -/
def updateFrames (frames : List SFrame) : List SFrame :=
  (List.range frames.length).map (fun k =>
    let fr := frames.getD k ⟨.fin 0, []⟩
    if k < 2 ∨ k = frames.length - 1 then fr
    else ⟨fr.time, fr.keyList.map (fun ck =>
      ⟨ck.index, ck.coeff, ck.outSlope, ck.value,
       scanPrev frames fr.time ck (k - 1)⟩)⟩)

/-- process_streamed_clip: parse all frames, then back-fill in-slopes. -/
def processStreamedClip (ws : List Nat) : Option (List SFrame) :=
  (parseFrames ws).map updateFrames

/-! ## Motion3 segment classification (live2d.py lines 337-393) -/

/-- One point of a track's curve as assembled by read_streamed_data and
read_curve_data.  The stored coeff entry of the Python dict is not
consulted by the classification loop and is omitted. -/
structure CPoint where
  time : F
  value : F
  inSlope : F
  outSlope : F
deriving Repr, DecidableEq

/-- Half-even rounding to three decimal places, exactly what formatting a
float with {:.3f} performs on the value. -/
def round3 (q : ℚ) : ℚ :=
  let t := q * 1000
  let fl := ⌊t⌋
  let frac := t - fl
  let r : ℤ :=
    if frac > 1 / 2 then fl + 1
    else if frac < 1 / 2 then fl
    else if fl % 2 = 0 then fl else fl + 1
  (r : ℚ) / 1000

/-- format_float: an integral float collapses to the integer, any other
finite float is rounded to three decimals; int() of an infinity or nan
raises, modelled as none. -/
def formatFloat : F → Option ℚ
  | .fin q => some (if q.den = 1 then q else round3 q)
  | _ => none

/-- The non-stepped tail of one classification iteration: step marker 2
when the current in-slope is +infinity, linear segment 0 when the previous
out-slope is 0 and the current in-slope is within 1e-4 of 0, cubic Bezier
segment 1 otherwise. -/
def segStepTail (pre cur : CPoint) : Option (List ℚ) := do
  if feq cur.inSlope (.inf false) then
    let a ← formatFloat cur.time
    let b ← formatFloat cur.value
    pure [2, a, b]
  else if feq pre.outSlope (.fin 0) && flt (fabs cur.inSlope) (.fin (1 / 10000))
  then
    let a ← formatFloat cur.time
    let b ← formatFloat cur.value
    pure [0, a, b]
  else
    let tangentLen := fdiv (fsub cur.time pre.time) (.fin 3)
    let a ← formatFloat (fadd pre.time tangentLen)
    let b ← formatFloat (fadd (fmul pre.outSlope tangentLen) pre.value)
    let c ← formatFloat (fsub cur.time tangentLen)
    let d ← formatFloat (fsub cur.value (fmul cur.inSlope tangentLen))
    let e ← formatFloat cur.time
    let f ← formatFloat cur.value
    pure [1, a, b, c, d, e, f]

/-- One iteration of the classification loop at index j: pre = curve[j-1],
cur = curve[j], nxt = curve[j+1] when present.  A stepped segment 3 is
emitted when a next point exists, the time gap from pre to cur is within
1e-4 of 0.01, and the NEXT point's value equals the CURRENT point's
value; otherwise the tail branches run. -/
def segStep (pre cur : CPoint) (nxt : Option CPoint) : Option (List ℚ) :=
  match nxt with
  | some n =>
    if flt (fabs (fsub (fsub cur.time pre.time) (.fin (1 / 100))))
          (.fin (1 / 10000)) &&
       feq n.value cur.value then do
      let a ← formatFloat n.time
      let b ← formatFloat n.value
      pure [3, a, b]
    else segStepTail pre cur
  | none => segStepTail pre cur

/-- The per-track classification loop from j = 1 upward. -/
def segmentsAux : CPoint → List CPoint → Option (List ℚ)
  | _, [] => some []
  | pre, cur :: rest => do
    let s ← segStep pre cur rest.head?
    let t ← segmentsAux cur rest
    pure (s ++ t)

/-- The full Segments list of one curve: the origin pair [0, value of the
first point] followed by the per-iteration emissions; an empty curve
raises IndexError on track["Curve"][0]. -/
def segmentsOf (curve : List CPoint) : Option (List ℚ) :=
  match curve with
  | [] => none
  | c0 :: rest => do
    let v ← formatFloat c0.value
    let t ← segmentsAux c0 rest
    pure ([0, v] ++ t)

/-! ## Concrete fixtures -/

/-- AFS2 fixture from the C1 claim: offset width 2, cue-id width 2, two
entries, alignment 32, raw offsets [0, 100, 250]. -/
def afsCex : Bytes :=
  [0x41, 0x46, 0x53, 0x32,
   0, 2, 2, 0,
   2, 0, 0, 0,
   32, 0, 0, 0,
   0, 0, 1, 0,
   0, 0, 100, 0, 250, 0]

/-- AFS2 fixture with zero entries: file count 0, a single raw offset. -/
def afsEmptyCex : Bytes :=
  [0x41, 0x46, 0x53, 0x32,
   0, 4, 2, 0,
   0, 0, 0, 0,
   32, 0, 0, 0,
   0, 0, 0, 0]

/-- Curve with samples at times 0.0, 0.01, 0.02, values 1, 2, 1 (samples
0 and 2 share the value) and zero slopes. -/
def c3Curve : List CPoint :=
  [⟨.fin 0, .fin 1, .fin 0, .fin 0⟩,
   ⟨.fin (1 / 100), .fin 2, .fin 0, .fin 0⟩,
   ⟨.fin (2 / 100), .fin 1, .fin 0, .fin 0⟩]

/-- Curve with samples at times 0.0, 0.01, 0.02, values 1, 2, 2 (samples
1 and 2 share the value) and zero slopes. -/
def c3CurveAmd : List CPoint :=
  [⟨.fin 0, .fin 1, .fin 0, .fin 0⟩,
   ⟨.fin (1 / 100), .fin 2, .fin 0, .fin 0⟩,
   ⟨.fin (2 / 100), .fin 2, .fin 0, .fin 0⟩]

/-- Streamed-clip words: four frames at times 0, 1, 2, 3; curve index 7
appears in frames 0 and 2 only (coefficients [0, 1, 0], values 0 then 1);
frames 1 and 3 hold unrelated indices 9 and 11. -/
def c4Words : List Nat :=
  [0x00000000, 1, 7, 0, 0x3F800000, 0, 0x00000000,
   0x3F800000, 1, 9, 0, 0x3F800000, 0, 0x00000000,
   0x40000000, 1, 7, 0, 0x3F800000, 0, 0x3F800000,
   0x40400000, 1, 11, 0, 0x3F800000, 0, 0x00000000]

/-- The frames parsed from c4Words (all in-slopes still 0): the decoder
output, since the backward scan never reaches frame 0 and no other frame
matches index 7 or 11 or 9 twice. -/
def c4Frames : List SFrame :=
  [⟨.fin 0, [⟨7, [.fin 0, .fin 1, .fin 0], .fin 0, .fin 0, .fin 0⟩]⟩,
   ⟨.fin 1, [⟨9, [.fin 0, .fin 1, .fin 0], .fin 0, .fin 0, .fin 0⟩]⟩,
   ⟨.fin 2, [⟨7, [.fin 0, .fin 1, .fin 0], .fin 0, .fin 1, .fin 0⟩]⟩,
   ⟨.fin 3, [⟨11, [.fin 0, .fin 1, .fin 0], .fin 0, .fin 0, .fin 0⟩]⟩]

/-! ## moc3 parameter-id resolver (live2d.py, extract_params_ids_from_moc3) -/

/-- One bit step of zlib CRC-32 (reversed polynomial 0xEDB88320). -/
def crc32Bit (c : Nat) : Nat :=
  if c &&& 1 = 1 then (c >>> 1) ^^^ 0xEDB88320 else c >>> 1

/-- One byte step of zlib CRC-32. -/
def crc32Byte (c b : Nat) : Nat :=
  crc32Bit (crc32Bit (crc32Bit (crc32Bit
    (crc32Bit (crc32Bit (crc32Bit (crc32Bit (c ^^^ b))))))))

/-- zlib.crc32 of a byte run (initial and final complement). -/
def crc32 (data : Bytes) : Nat :=
  (data.foldl crc32Byte 0xFFFFFFFF) ^^^ 0xFFFFFFFF

/-- ASCII view of a byte run, standing for Python bytes.decode(); every
name used in the theorems below is plain ASCII, where the two agree. -/
def asStr (l : Bytes) : String := String.mk (l.map Char.ofNat)

/-- Python dict insertion: replace the value of an existing key in place,
otherwise append the pair. -/
def dinsert (m : List (String × String)) (k v : String) :
    List (String × String) :=
  if m.any (fun p => p.1 == k) then
    m.map (fun p => if p.1 == k then (k, v) else p)
  else m ++ [(k, v)]

/-- One name-table loop of extract_params_ids_from_moc3: while strictly
more than 64 bytes remain before the table's end address, read the
NUL-terminated name at the cursor and record it under the decimal CRC32
of the raw name and of the prefixed name, then advance 64 bytes.  A slot
without any NUL before the end of the buffer makes the Python reader spin
forever; the model stops there instead, a case no theorem exercises. -/
def moc3Loop (buf : Bytes) (endAddr : Nat) (pre : Bytes) (cursor : Nat)
    (m : List (String × String)) : List (String × String) :=
  if 64 < endAddr - cursor then
    match string0At buf cursor with
    | none => m
    | some name =>
      moc3Loop buf endAddr pre (cursor + 64)
        (dinsert (dinsert m (toString (crc32 name)) (asStr name))
          (toString (crc32 (pre ++ name))) (asStr name))
  else m
termination_by endAddr - cursor
decreasing_by omega

/-- The bytes of "Parts/". -/
def partsPre : Bytes := [80, 97, 114, 116, 115, 47]

/-- The bytes of "Parameters/". -/
def paramsPre : Bytes :=
  [80, 97, 114, 97, 109, 101, 116, 101, 114, 115, 47]

/-- extract_params_ids_from_moc3: the parts table bounds are little-endian
u32 values at 0x4C/0x50, the parameters table bounds at 0x108/0x10C; both
64-byte-stride tables are folded into one map.  none models an unpack
error on a too-short header. -/
def extractParamsIds (moc3 : Bytes) : Option (List (String × String)) := do
  let partBase ← readLE moc3 0x4C 4
  let partEnd ← readLE moc3 0x50 4
  let m1 := moc3Loop moc3 partEnd partsPre partBase []
  let paramBase ← readLE moc3 0x108 4
  let paramEnd ← readLE moc3 0x10C 4
  pure (moc3Loop moc3 paramEnd paramsPre paramBase m1)

/-- Little-endian u32 bytes of a value. -/
def u32le (n : Nat) : Bytes :=
  [n % 256, n / 256 % 256, n / 65536 % 256, n / 16777216 % 256]

/-- A 64-byte name-table slot holding a NUL-terminated name. -/
def slot64 (name : Bytes) : Bytes :=
  name ++ List.replicate (64 - name.length) 0

/-- moc3 fixture: a parts table of exactly two 64-byte slots (names AAA
and BBB) spanning [0x110, 0x190), and an empty parameters table. -/
def moc3Cex : Bytes :=
  List.replicate 0x4C 0 ++ u32le 0x110 ++ u32le 0x190 ++
  List.replicate (0x108 - 0x54) 0 ++ u32le 0x190 ++ u32le 0x190 ++
  slot64 [65, 65, 65] ++ slot64 [66, 66, 66]

/-! ## UTF table readers

Two embeddings: utfParse follows acb.py's UTFTable (the general reader),
getUtfTable follows usm.py's simplified reader.  Values carry Python
representations: integers, floats as the raw 32 bits read, resolved
strings and data blobs as byte runs, and the un-called string/data
closures the USM reader leaves in its constants.  Row keys are the raw
bytes of the field names (Python's str/bytes distinction is flattened to
byte content, which is charitable toward the equivalence claim). -/

/-- A UTF cell value. -/
inductive UValue where
  | i (z : Int)
  | f32 (bits : Nat)
  | str (s : Bytes)
  | data (b : Bytes)
  | promiseStr (offset : Nat)
  | promiseData (offset size : Nat)
deriving Repr, DecidableEq

/-- One decoded row: field name bytes to value, in dict insertion order. -/
abbrev URow := List (Bytes × UValue)

/-- Python dict insertion for rows. -/
def rowInsert (m : URow) (k : Bytes) (v : UValue) : URow :=
  if m.any (fun p => p.1 == k) then
    m.map (fun p => if p.1 == k then (k, v) else p)
  else m ++ [(k, v)]

/-- Byte width of a per-row field by type tag, as column_data_stable;
none models the KeyError on an unknown tag. -/
def stableSize : Nat → Option Nat
  | 0x0B => some 8
  | 0x0A => some 4
  | 0x08 => some 4
  | 0x06 => some 8
  | 0x05 => some 4
  | 0x04 => some 4
  | 0x03 => some 2
  | 0x02 => some 2
  | 0x01 => some 1
  | 0x00 => some 1
  | _ => none

/-- Constant-field reader of the ACB path (column_data_dtable over the R
reader, all reads big-endian); string and data fields produce deferred
references that UTFTable materializes after the schema pass. -/
def constReadAcb (buf : Bytes) (c : Nat) : Nat → Option (UValue × Nat)
  | 0x0B => do
    let o ← readBE buf c 4
    let sz ← readBE buf (c + 4) 4
    pure (.promiseData o sz, c + 8)
  | 0x0A => do
    let o ← readBE buf c 4
    pure (.promiseStr o, c + 4)
  | 0x08 => do
    let b ← readBE buf c 4
    pure (.f32 b, c + 4)
  | 0x06 => do
    let v ← readBE buf c 8
    pure (.i v, c + 8)
  | 0x05 => do
    let v ← readBE buf c 4
    pure (.i (toSigned 4 v), c + 4)
  | 0x04 => do
    let v ← readBE buf c 4
    pure (.i v, c + 4)
  | 0x03 => do
    let v ← readBE buf c 2
    pure (.i (toSigned 2 v), c + 2)
  | 0x02 => do
    let v ← readBE buf c 2
    pure (.i v, c + 2)
  | 0x01 => do
    let v ← readBE buf c 1
    pure (.i (toSigned 1 v), c + 1)
  | 0x00 => do
    let v ← readBE buf c 1
    pure (.i v, c + 1)
  | _ => none

/-- Schema pass of UTFTable.read_schema: for each field read the type
byte and the 4-byte name offset; constant/constant2 fields are read in
place and stored UNDER THE FIELD NAME, per-row fields accumulate their
name and type tag in declaration order. -/
def schemaAcb (buf : Bytes) (sto : Nat) :
    Nat → Nat → List Bytes → List Nat → URow →
    Option (List Bytes × List Nat × URow)
  | 0, _, dyn, tks, consts => some (dyn, tks, consts)
  | n + 1, c, dyn, tks, consts => do
    let ftype ← readBE buf c 1
    let nameOff ← readBE buf (c + 1) 4
    let occ := ftype &&& 0xF0
    let tk := ftype &&& 0x0F
    if occ = 0x30 ∨ occ = 0x70 then do
      let name ← string0At buf (sto + 8 + nameOff)
      let (v, c2) ← constReadAcb buf (c + 5) tk
      schemaAcb buf sto n c2 dyn tks (rowInsert consts name v)
    else do
      let name ← string0At buf (sto + 8 + nameOff)
      let _ ← stableSize tk
      schemaAcb buf sto n (c + 5) (dyn ++ [name]) (tks ++ [tk]) consts

/-- Materialization loop of read_schema: every callable constant (a
deferred string or data reference) is resolved against the header's
string-table and data offsets. -/
def materialize (buf : Bytes) (sto dataOff : Nat) :
    URow → Option URow
  | [] => some []
  | (k, v) :: rest => do
    let v2 ← match v with
      | .promiseStr o => (string0At buf (sto + 8 + o)).map UValue.str
      | .promiseData o sz =>
        some (.data ((buf.drop (dataOff + 8 + o)).take sz))
      | other => some other
    let rest2 ← materialize buf sto dataOff rest
    pure ((k, v2) :: rest2)

/-- One per-row value of the ACB reader: the struct unpack of the field
followed by UTFTable.resolve for string/data fields (string resolution
reads a NUL-terminated run at string_table_offset + 8 + offset; data
resolution reads size bytes at data_offset + 8 + offset). -/
def rowRead1Acb (buf : Bytes) (sto dataOff c : Nat) :
    Nat → Option (UValue × Nat)
  | 0x0B => do
    let o ← readBE buf c 4
    let sz ← readBE buf (c + 4) 4
    pure (.data ((buf.drop (dataOff + 8 + o)).take sz), c + 8)
  | 0x0A => do
    let o ← readBE buf c 4
    let s ← string0At buf (sto + 8 + o)
    pure (.str s, c + 4)
  | 0x08 => do
    let b ← readBE buf c 4
    pure (.f32 b, c + 4)
  | 0x06 => do
    let v ← readBE buf c 8
    pure (.i v, c + 8)
  | 0x05 => do
    let v ← readBE buf c 4
    pure (.i (toSigned 4 v), c + 4)
  | 0x04 => do
    let v ← readBE buf c 4
    pure (.i v, c + 4)
  | 0x03 => do
    let v ← readBE buf c 2
    pure (.i (toSigned 2 v), c + 2)
  | 0x02 => do
    let v ← readBE buf c 2
    pure (.i v, c + 2)
  | 0x01 => do
    let v ← readBE buf c 1
    pure (.i (toSigned 1 v), c + 1)
  | 0x00 => do
    let v ← readBE buf c 1
    pure (.i v, c + 1)
  | _ => none

/-- All per-row values of one ACB row, in schema order. -/
def rowValsAcb (buf : Bytes) (sto dataOff : Nat) :
    List Nat → Nat → Option (List UValue × Nat)
  | [], c => some ([], c)
  | tk :: tks, c => do
    let (v, c2) ← rowRead1Acb buf sto dataOff c tk
    let (vs, c3) ← rowValsAcb buf sto dataOff tks c2
    pure (v :: vs, c3)

/-- Row loop of UTFTable.iter_rows: unpack each row, zip with the dynamic
field names, then update with the constants. -/
def rowsAcb (buf : Bytes) (sto dataOff : Nat) (dyn : List Bytes)
    (tks : List Nat) (consts : URow) :
    Nat → Nat → Option (List URow)
  | 0, _ => some []
  | n + 1, c => do
    let (vs, c2) ← rowValsAcb buf sto dataOff tks c
    let base := (dyn.zip vs).foldl (fun m p => rowInsert m p.1 p.2) []
    let row := consts.foldl (fun m p => rowInsert m p.1 p.2) base
    let rest ← rowsAcb buf sto dataOff dyn tks consts n c2
    pure (row :: rest)

/-- Parsed UTF table of the ACB reader. -/
structure UTFTableE where
  name : Bytes
  rows : List URow
deriving Repr, DecidableEq

/-- UTFTable.__init__ of acb.py: magic, 9-field big-endian header, table
name, schema pass from 0x20, constant materialization, then the rows
from row_offset + 8. -/
def utfParse (buf : Bytes) : Option UTFTableE := do
  let magic ← readBE buf 0 4
  if magic ≠ 0x40555446 then none else
  let _tableSize ← readBE buf 4 4
  let _u1 ← readBE buf 8 2
  let rowOff ← readBE buf 10 2
  let sto ← readBE buf 12 4
  let dataOff ← readBE buf 16 4
  let tno ← readBE buf 20 4
  let nfields ← readBE buf 24 2
  let _rowSize ← readBE buf 26 2
  let nrows ← readBE buf 28 4
  let name ← string0At buf (sto + 8 + tno)
  let (dyn, tks, consts0) ← schemaAcb buf sto nfields 0x20 [] [] []
  let consts ← materialize buf sto dataOff consts0
  let rows ← rowsAcb buf sto dataOff dyn tks consts nrows (rowOff + 8)
  pure ⟨name, rows⟩

/-- Constant-field reader of the USM path (column_data_dtable of usm.py
over BinaryStream).  Divergences from the ACB reader, all faithful to the
source: string and data constants stay as never-called closures; a float
constant is read through readFloat, whose struct format f has no
byte-order mark and therefore reads NATIVE little-endian even on this
big-endian stream; a 4BYTE2 constant calls the nonexistent
BinaryStream.readInt and raises AttributeError (modelled none). -/
def constReadUsm (tbuf : Bytes) (c : Nat) : Nat → Option (UValue × Nat)
  | 0x0B => do
    let o ← readBE tbuf c 4
    let sz ← readBE tbuf (c + 4) 4
    pure (.promiseData o sz, c + 8)
  | 0x0A => do
    let o ← readBE tbuf c 4
    pure (.promiseStr o, c + 4)
  | 0x08 => do
    let b ← readLE tbuf c 4
    pure (.f32 b, c + 4)
  | 0x06 => do
    let v ← readBE tbuf c 8
    pure (.i v, c + 8)
  | 0x05 => none
  | 0x04 => do
    let v ← readBE tbuf c 4
    pure (.i v, c + 4)
  | 0x03 => do
    let v ← readBE tbuf c 2
    pure (.i (toSigned 2 v), c + 2)
  | 0x02 => do
    let v ← readBE tbuf c 2
    pure (.i v, c + 2)
  | 0x01 => do
    let v ← readBE tbuf c 1
    pure (.i (toSigned 1 v), c + 1)
  | 0x00 => do
    let v ← readBE tbuf c 1
    pure (.i v, c + 1)
  | _ => none

/-- Schema pass of get_utf_table.  The field name is read but every
constant is stored UNDER THE TABLE NAME (constants[name] = field_val in
the source, with field_name left unused); the loop also leaves the last
field's name offset behind, which the row pass later uses to resolve
data values.  Offsets below the -24 rebase raise on the negative seek
(modelled none). -/
def schemaUsm (tbuf : Bytes) (sto : Nat) (tableName : Bytes) :
    Nat → Nat → List Bytes → List Nat → URow → Option Nat →
    Option (List Bytes × List Nat × URow × Option Nat)
  | 0, _, dyn, tks, consts, lastOff => some (dyn, tks, consts, lastOff)
  | n + 1, c, dyn, tks, consts, _ => do
    let ftype ← readBE tbuf c 1
    let nameOff ← readBE tbuf (c + 1) 4
    let occ := ftype &&& 0xF0
    let tk := ftype &&& 0x0F
    if sto + nameOff < 24 then none else
    let fieldName ← string0At tbuf (sto + nameOff - 24)
    if occ = 0x30 ∨ occ = 0x70 then do
      let (v, c2) ← constReadUsm tbuf (c + 5) tk
      schemaUsm tbuf sto tableName n c2 dyn tks
        (rowInsert consts tableName v) (some nameOff)
    else do
      let _ ← stableSize tk
      let _ := fieldName
      schemaUsm tbuf sto tableName n (c + 5) (dyn ++ [fieldName])
        (tks ++ [tk]) consts (some nameOff)

/-- One per-row value of the USM reader: the big-endian struct unpack
followed by the resolution of usm.py lines 118-131.  A data value reads
size bytes at data_offset + name_offset - 24, where name_offset is the
LEFTOVER schema-loop variable, not the offset stored in the row (the
unpacked offset is discarded); with no schema fields it is unbound and
raises (modelled none).  A string value resolves correctly at
string_table_offset + offset - 24. -/
def rowRead1Usm (tbuf : Bytes) (sto dataOff : Nat) (lastOff : Option Nat)
    (c : Nat) : Nat → Option (UValue × Nat)
  | 0x0B => do
    let _o ← readBE tbuf c 4
    let sz ← readBE tbuf (c + 4) 4
    match lastOff with
    | none => none
    | some lo =>
      if dataOff + lo < 24 then none else
      pure (.data ((tbuf.drop (dataOff + lo - 24)).take sz), c + 8)
  | 0x0A => do
    let o ← readBE tbuf c 4
    if sto + o < 24 then none else
    let s ← string0At tbuf (sto + o - 24)
    pure (.str s, c + 4)
  | 0x08 => do
    let b ← readBE tbuf c 4
    pure (.f32 b, c + 4)
  | 0x06 => do
    let v ← readBE tbuf c 8
    pure (.i v, c + 8)
  | 0x05 => do
    let v ← readBE tbuf c 4
    pure (.i (toSigned 4 v), c + 4)
  | 0x04 => do
    let v ← readBE tbuf c 4
    pure (.i v, c + 4)
  | 0x03 => do
    let v ← readBE tbuf c 2
    pure (.i (toSigned 2 v), c + 2)
  | 0x02 => do
    let v ← readBE tbuf c 2
    pure (.i v, c + 2)
  | 0x01 => do
    let v ← readBE tbuf c 1
    pure (.i (toSigned 1 v), c + 1)
  | 0x00 => do
    let v ← readBE tbuf c 1
    pure (.i v, c + 1)
  | _ => none

/-- All per-row values of one USM row, in schema order. -/
def rowValsUsm (tbuf : Bytes) (sto dataOff : Nat) (lastOff : Option Nat) :
    List Nat → Nat → Option (List UValue × Nat)
  | [], c => some ([], c)
  | tk :: tks, c => do
    let (v, c2) ← rowRead1Usm tbuf sto dataOff lastOff c tk
    let (vs, c3) ← rowValsUsm tbuf sto dataOff lastOff tks c2
    pure (v :: vs, c3)

/-- Row loop of get_utf_table: unpack each row, zip with the dynamic
field names, then update with the constants. -/
def rowsUsm (tbuf : Bytes) (sto dataOff : Nat) (lastOff : Option Nat)
    (dyn : List Bytes) (tks : List Nat) (consts : URow) :
    Nat → Nat → Option (List URow)
  | 0, _ => some []
  | n + 1, c => do
    let (vs, c2) ← rowValsUsm tbuf sto dataOff lastOff tks c
    let base := (dyn.zip vs).foldl (fun m p => rowInsert m p.1 p.2) []
    let row := consts.foldl (fun m p => rowInsert m p.1 p.2) base
    let rest ← rowsUsm tbuf sto dataOff lastOff dyn tks consts n c2
    pure (row :: rest)

/-- get_utf_table of usm.py applied to a buffer that begins at the @UTF
signature (the USM caller positions the stream there): after the 9-field
big-endian header, a fresh sub-stream holds the next table_size - 24
bytes (a negative length makes BytesIO.read return the whole rest), and
every header offset is rebased by -24 into that sub-stream; returns the
row list. -/
def getUtfTable (buf : Bytes) : Option (List URow) := do
  let sig ← readN buf 0 4
  if sig ≠ [0x40, 0x55, 0x54, 0x46] then none else
  let tableSize ← readBE buf 4 4
  let _u1 ← readBE buf 8 2
  let rowOff ← readBE buf 10 2
  let sto ← readBE buf 12 4
  let dataOff ← readBE buf 16 4
  let tno ← readBE buf 20 4
  let nfields ← readBE buf 24 2
  let _rowSize ← readBE buf 26 2
  let nrows ← readBE buf 28 4
  let tbuf := if tableSize < 24 then buf.drop 32
              else (buf.drop 32).take (tableSize - 24)
  if sto + tno < 24 then none else
  let name ← string0At tbuf (sto + tno - 24)
  let (dyn, tks, consts, lastOff) ←
    schemaUsm tbuf sto name nfields 0 [] [] [] none
  if rowOff < 24 then none else
  rowsUsm tbuf sto dataOff lastOff dyn tks consts nrows (rowOff - 24)

/-- UTF fixture: table name T, one constant 1-byte field named F with
value 7, one row, no per-row fields.  Layout: magic, header, schema at
0x20 (type 0x30, name offset 2, value 7), then the string table T NUL F
NUL at absolute 38 (string_table_offset 30, row_offset 30, data_offset
34, table_size 34). -/
def c2Buf : Bytes :=
  [0x40, 0x55, 0x54, 0x46,
   0, 0, 0, 34,
   0, 0,
   0, 30,
   0, 0, 0, 30,
   0, 0, 0, 34,
   0, 0, 0, 0,
   0, 1,
   0, 0,
   0, 0, 0, 1,
   0x30, 0, 0, 0, 2, 7,
   0x54, 0, 0x46, 0]

-- DEFINITIONS-END

/-! ## Theorems -/

/-- Index-wise view of zip, used to read entries off the zipped lists of
create_file_entries. -/
theorem getElem?_zip {α β : Type} (l1 : List α) (l2 : List β) (i : Nat) :
    (l1.zip l2)[i]? =
      l1[i]?.bind (fun a => l2[i]?.map (fun b => (a, b))) := by
  induction l1 generalizing l2 i with
  | nil => simp
  | cons a t ih =>
    cases l2 with
    | nil => simp
    | cons b t2 =>
      cases i with
      | zero => simp
      | succ j => simpa using ih t2 j

/-- C1 (counterexample): for the claim's own archive (alignment 32, raw
offsets [0, 100, 250]) the parsed entries are (cue 0, offset 0, size 100)
and (cue 1, offset 128, size 122): offsets are aligned as claimed, but the
sizes are the next MASKED offset minus the current ALIGNED offset, not the
[128, 128] the claim derives from differences of consecutive aligned
offsets. -/
theorem afs2_claim_sizes_refuted :
    (afsParse afsCex).map (fun ar => ar.files) =
      some [⟨0, 0, 100⟩, ⟨1, 128, 122⟩] ∧
    (afsParse afsCex).map (fun ar => ar.files.map (fun f => f.size)) ≠
      some [128, 128] := by
  constructor
  · decide
  · decide

/-- C1 (amended): every parsed entry i carries cue id i, the masked-then-
aligned offset of raw offset i, and a size equal to the masked (unaligned)
raw offset i+1 minus the entry's own aligned offset. -/
theorem afs2_entry_characterization (alignment offsetMask : Nat)
    (cueIds rawOffs : List Nat) (i c r rn : Nat)
    (hc : cueIds[i]? = some c)
    (hr : rawOffs[i]? = some r)
    (hrn : rawOffs[i + 1]? = some rn) :
    (mkFileEntries alignment offsetMask cueIds rawOffs)[i]? =
      some ⟨c, align alignment (r &&& offsetMask),
            ((rn &&& offsetMask : Nat) : Int) -
              ((align alignment (r &&& offsetMask) : Nat) : Int)⟩ := by
  have htail : (rawOffs.map (fun x => x &&& offsetMask)).tail[i]? =
      some (rn &&& offsetMask) := by
    cases rawOffs with
    | nil => simp at hrn
    | cons a t =>
      have ht : t[i]? = some rn := by simpa using hrn
      simp [List.getElem?_map, ht]
  simp only [mkFileEntries, List.getElem?_map, getElem?_zip, htail, hc, hr,
    Option.map_some, Option.some_bind]
  rfl

/-- Witness for afs2_entry_characterization at the C1 fixture lists. -/
theorem afs2_entry_characterization_witness :
    (mkFileEntries 32 65535 [0, 1] [0, 100, 250]).get? 1 =
      some ⟨1, 128, 122⟩ := by
  have h := afs2_entry_characterization 32 65535 [0, 1] [0, 100, 250]
    1 1 100 250 (by decide) (by decide) (by decide)
  exact h.trans (by decide)

/-- C7 (counterexample): an AFS2 archive with zero entries parses, and a
lookup that matches nothing fails with the IndexError of self.files[0],
not with the not-found ValueError the claim requires. -/
theorem afs2_lookup_empty_refuted :
    (afsParse afsEmptyCex).map (fun ar => fileDataForCueId ar 5) =
      some (.error .indexError) ∧
    (afsParse afsEmptyCex).map (fun ar => fileDataForCueId ar 5) ≠
      some (.error .notFound) := by
  have h1 : (afsParse afsEmptyCex).map (fun ar => fileDataForCueId ar 5) =
      some (.error .indexError) := rfl
  refine ⟨h1, ?_⟩
  rw [h1]
  simp

/-- First-match characterization of find?: an element that satisfies the
test, located at an index before which no element satisfies it, is the one
find? returns. -/
theorem find?_of_first {α : Type} (p : α → Bool) :
    ∀ (l : List α) (i : Nat) (a : α), l.get? i = some a → p a = true →
      (∀ j b, j < i → l.get? j = some b → p b = false) →
      l.find? p = some a := by
  intro l
  induction l with
  | nil => intro i a h; simp at h
  | cons x t ih =>
    intro i a hget hp hmin
    cases i with
    | zero =>
      simp at hget
      subst hget
      simp [List.find?, hp]
    | succ j =>
      have hx : p x = false := hmin 0 x (Nat.succ_pos j) (by simp)
      simp only [List.find?, hx]
      exact ih j a (by simpa using hget) hp
        (fun j2 b hj hb => hmin (j2 + 1) b (by omega) (by simpa using hb))

/-- C7 (amended): on an archive with at least one entry, the lookup
returns the data of the FIRST entry with the requested cue id; when no
entry matches it returns the first entry's data if that entry's cue id is
0 and the not-found error otherwise. -/
theorem fileDataForCueId_spec (ar : Afs2Archive) (cueId : Nat) :
    (∀ i f, ar.files.get? i = some f → f.cueId = cueId →
      (∀ j g, j < i → ar.files.get? j = some g → g.cueId ≠ cueId) →
      fileDataForCueId ar cueId = .ok (fileData ar f)) ∧
    ((∀ f ∈ ar.files, f.cueId ≠ cueId) →
      ∀ f0 rest, ar.files = f0 :: rest →
      fileDataForCueId ar cueId =
        (if f0.cueId = 0 then .ok (fileData ar f0) else .error .notFound)) := by
  constructor
  · intro i f hget hf hmin
    have hfind : ar.files.find? (fun f => f.cueId == cueId) = some f := by
      refine find?_of_first _ ar.files i f hget (by simpa using hf) ?_
      intro j g hj hg
      simpa using hmin j g hj hg
    simp [fileDataForCueId, hfind]
  · intro hnone f0 rest hcons
    have hfind : ar.files.find? (fun f => f.cueId == cueId) = none := by
      rw [List.find?_eq_none]
      intro g hg
      simpa using hnone g hg
    rw [fileDataForCueId, hfind, hcons]

/-- Witness for fileDataForCueId_spec: on a two-entry archive the first
entry whose cue id is 5 is the one returned. -/
theorem fileDataForCueId_spec_witness :
    fileDataForCueId ⟨32, 2, 65535, [⟨3, 0, 4⟩, ⟨5, 4, 6⟩],
        [9, 8, 7, 6, 5, 4, 3, 2, 1, 0]⟩ 5 = .ok [5, 4, 3, 2, 1, 0] := by
  have h := (fileDataForCueId_spec ⟨32, 2, 65535,
      [⟨3, 0, 4⟩, ⟨5, 4, 6⟩], [9, 8, 7, 6, 5, 4, 3, 2, 1, 0]⟩ 5).1
    1 ⟨5, 4, 6⟩ (by decide) rfl ?_
  · exact h.trans rfl
  · intro j g hj hg
    cases j with
    | zero =>
      have hgg : (⟨3, 0, 4⟩ : Afs2Ent) = g := by simpa using hg
      subst hgg
      decide
    | succ n => omega

/-- C5: name disambiguation of TrackList.__init__.  When the resolved
display name is already used by an earlier track, the emitted name is the
base name with -{wav_id} appended, or -{wav_id+1} appended when that
variant is taken as well; three tracks named bgm with waveform ids 5, 5, 6
resolved in that order come out as bgm, bgm-5, bgm-6. -/
theorem track_name_disambiguation :
    (∀ (tracks : List TrackT) (name : String) (wavId : Int),
      tracks.any (fun t => t.name == name) = true →
      disambiguate tracks name wavId =
        (if tracks.any (fun t => t.name == name ++ "-" ++ toString wavId)
         then name ++ "-" ++ toString (wavId + 1)
         else name ++ "-" ++ toString wavId)) ∧
    (resolveTracks [("bgm", 5), ("bgm", 5), ("bgm", 6)]).map
        (fun t => t.name) = ["bgm", "bgm-5", "bgm-6"] := by
  constructor
  · intro tracks name wavId h
    simp [disambiguate, h]
  · rfl

/-- Witness for track_name_disambiguation: a second track named bgm with
waveform id 5 is emitted as bgm-5. -/
theorem track_name_disambiguation_witness :
    disambiguate [⟨0, "bgm", 5, 2, 0, -1⟩] "bgm" 5 = "bgm-5" := by
  have h := track_name_disambiguation.1 [⟨0, "bgm", 5, 2, 0, -1⟩] "bgm" 5
    (by decide)
  exact h.trans (by decide)

/-- C9: get_mask is a pure function of its key argument; its output
depends on the key only through the two 32-bit halves the source extracts
(the low 32 bits and bits 64..95), so any two keys agreeing on those
halves — in particular the same key twice — give byte-identical mask
tables. -/
theorem getMask_deterministic (k1 k2 : Nat)
    (h1 : k1 &&& 0xFFFFFFFF = k2 &&& 0xFFFFFFFF)
    (h2 : (k1 >>> 64) &&& 0xFFFFFFFF = (k2 >>> 64) &&& 0xFFFFFFFF) :
    getMask k1 = getMask k2 := by
  unfold getMask
  rw [h1, h2]

/-- Witness for getMask_deterministic: two keys differing only in bits the
source discards produce identical tables. -/
theorem getMask_deterministic_witness :
    getMask 123456789 = getMask (123456789 + 7 * 2 ^ 32) :=
  getMask_deterministic 123456789 (123456789 + 7 * 2 ^ 32)
    (by decide) (by decide)

/-- C10: mask_video leaves content shorter than 0x240 bytes (payload after
the 0x40-byte header shorter than 0x200) untouched, so a short video chunk
flagged as encrypted is written to the video stream unchanged even when a
mask key was supplied. -/
theorem short_video_chunk_unmasked (content : List Nat) (dataType : Nat)
    (vm : List Nat × List Nat) (h : content.length < 0x240) :
    maskVideo content vm = content ∧
    sfvChunkOut content dataType (some vm) = content := by
  have hm : maskVideo content vm = content := by
    unfold maskVideo
    rw [if_neg]
    omega
  refine ⟨hm, ?_⟩
  unfold sfvChunkOut
  split
  · exact hm
  · rfl

/-- Witness for short_video_chunk_unmasked: a 0x23F-byte chunk with the
encrypted data type and a supplied mask is written unchanged. -/
theorem short_video_chunk_unmasked_witness :
    maskVideo (List.replicate 0x23F 7)
        (List.replicate 32 1, List.replicate 32 2) =
      List.replicate 0x23F 7 ∧
    sfvChunkOut (List.replicate 0x23F 7) 0
        (some (List.replicate 32 1, List.replicate 32 2)) =
      List.replicate 0x23F 7 :=
  short_video_chunk_unmasked (List.replicate 0x23F 7) 0
    (List.replicate 32 1, List.replicate 32 2)
    (by rw [List.length_replicate]; omega)

/-- C3 (counterexample): three consecutive samples at times 0.0, 0.01,
0.02 with values 1, 2, 1 — sample 0 and sample 2 share the same value —
emit a LINEAR segment (identifier 0, third list element) between samples
0 and 1, not the claimed stepped identifier 3, because the source
compares the next value against the CURRENT sample (value 2), not against
sample 0. -/
theorem segment_stepped_claim_refuted :
    segmentsOf c3Curve = some [0, 1, 0, 1 / 100, 2, 0, 1 / 50, 1] ∧
    (segmentsOf c3Curve).map (fun l => l.getD 2 0) = some 0 ∧
    (0 : ℚ) ≠ 3 := by
  have h1 : segmentsOf c3Curve = some [0, 1, 0, 1 / 100, 2, 0, 1 / 50, 1] := by
    norm_num [segmentsOf, segmentsAux, segStep, segStepTail, formatFloat,
      round3, c3Curve, flt, feq, fabs, fsub, fadd, fneg, fmul, fdiv, fmax]
  refine ⟨h1, ?_, by norm_num⟩
  rw [h1]
  norm_num

/-- C3 (amended): a stepped segment (identifier 3, extending to the next
point) is emitted at step j exactly when a next point exists, the time
gap from point j-1 to point j is within 1e-4 of 0.01, and the NEXT point
j+1 shares its value with the CURRENT point j; in the three-sample
instance samples 1 and 2 must share the value. -/
theorem segment_stepped_characterization :
    (∀ (pre cur nxt : CPoint) (a b : ℚ),
      flt (fabs (fsub (fsub cur.time pre.time) (.fin (1 / 100))))
          (.fin (1 / 10000)) = true →
      feq nxt.value cur.value = true →
      formatFloat nxt.time = some a →
      formatFloat nxt.value = some b →
      segStep pre cur (some nxt) = some [3, a, b]) ∧
    segmentsOf c3CurveAmd = some [0, 1, 3, 1 / 50, 2, 0, 1 / 50, 2] := by
  constructor
  · intro pre cur nxt a b ht hv ha hb
    simp only [segStep, ht, hv, Bool.and_self, if_true]
    simp [ha, hb]
  · norm_num [segmentsOf, segmentsAux, segStep, segStepTail, formatFloat,
      round3, c3CurveAmd, flt, feq, fabs, fsub, fadd, fneg, fmul, fdiv, fmax]

/-- Witness for segment_stepped_characterization: the stepped branch fires
on the amended three-sample configuration. -/
theorem segment_stepped_characterization_witness :
    segStep ⟨.fin 0, .fin 1, .fin 0, .fin 0⟩
        ⟨.fin (1 / 100), .fin 2, .fin 0, .fin 0⟩
        (some ⟨.fin (2 / 100), .fin 2, .fin 0, .fin 0⟩) =
      some [3, 1 / 50, 2] :=
  segment_stepped_characterization.1
    ⟨.fin 0, .fin 1, .fin 0, .fin 0⟩
    ⟨.fin (1 / 100), .fin 2, .fin 0, .fin 0⟩
    ⟨.fin (2 / 100), .fin 2, .fin 0, .fin 0⟩
    (1 / 50) 2
    (by norm_num [flt, fabs, fsub, fadd, fneg])
    (by norm_num [feq])
    (by norm_num [formatFloat, round3])
    (by norm_num [formatFloat, round3])

/-- C6 (counterexample): a streamed curve key whose three coefficient
words are all zero decodes with outSlope = coeff[2] = 0, not the claimed
+infinity. -/
theorem zero_coeff_outslope_refuted :
    (parseSCKey [5, 0, 0, 0, 0x40400000]).map (fun p => p.1.outSlope) =
      some (F.fin 0) ∧
    F.fin 0 ≠ F.inf false :=
  ⟨by norm_num [parseSCKey, decodeF32], by simp⟩

/-- C6 (amended): a key with all-zero coefficients makes
calc_next_in_slope return +infinity — so it is the NEXT matching key
whose inSlope becomes +infinity during back-fill — and the classification
emits a step marker (identifier 2) at a sample whose own inSlope is
+infinity. -/
theorem zero_coeff_step_marker :
    (∀ (k : SCKey) (dx : F) (rhs : SCKey),
      k.coeff = [.fin 0, .fin 0, .fin 0] →
      calcNextInSlope k dx rhs = .inf false) ∧
    (∀ (pre cur : CPoint) (a b : ℚ),
      cur.inSlope = .inf false →
      formatFloat cur.time = some a →
      formatFloat cur.value = some b →
      segStep pre cur none = some [2, a, b]) := by
  constructor
  · intro k dx rhs hc
    simp [calcNextInSlope, hc, feq]
  · intro pre cur a b hi ha hb
    simp [segStep, segStepTail, hi, feq, ha, hb]

/-- Witness for zero_coeff_step_marker: a concrete all-zero-coefficient
key yields +infinity from calc_next_in_slope. -/
theorem zero_coeff_step_marker_witness :
    calcNextInSlope ⟨3, [.fin 0, .fin 0, .fin 0], .fin 0, .fin 5, .fin 0⟩
        (.fin 1) ⟨3, [.fin 0, .fin 0, .fin 0], .fin 0, .fin 7, .fin 0⟩ =
      .inf false :=
  zero_coeff_step_marker.1
    ⟨3, [.fin 0, .fin 0, .fin 0], .fin 0, .fin 5, .fin 0⟩ (.fin 1)
    ⟨3, [.fin 0, .fin 0, .fin 0], .fin 0, .fin 7, .fin 0⟩ rfl

/-- C4 (counterexample): in c4Words, curve index 7 appears in frames 0
and 2 only; the claim backs frame 2's in-slope out of frame 0 (value
-1/2 via the Hermite formula), but the source scan range(k-1, 0, -1)
never examines frame 0, so the decoded inSlope stays 0. -/
theorem streamed_scan_skips_frame_zero :
    processStreamedClip c4Words = some c4Frames ∧
    (c4Frames.getD 2 ⟨.fin 0, []⟩).keyList.map (fun k => k.inSlope) =
      [F.fin 0] ∧
    calcNextInSlope ⟨7, [.fin 0, .fin 1, .fin 0], .fin 0, .fin 0, .fin 0⟩
        (F.fin 2) ⟨7, [.fin 0, .fin 1, .fin 0], .fin 0, .fin 1, .fin 0⟩ =
      F.fin (-1 / 2) ∧
    F.fin 0 ≠ F.fin (-1 / 2) := by
  have d0 : decodeF32 0x00000000 = F.fin 0 := by
    have hs : ((0x00000000 : Nat) >>> 31) &&& 1 = 0 := by decide
    have he : ((0x00000000 : Nat) >>> 23) &&& 0xFF = 0 := by decide
    have hm : (0x00000000 : Nat) &&& 0x7FFFFF = 0 := by decide
    simp only [decodeF32, hs, he, hm]
    norm_num
  have d1 : decodeF32 0x3F800000 = F.fin 1 := by
    have hs : ((0x3F800000 : Nat) >>> 31) &&& 1 = 0 := by decide
    have he : ((0x3F800000 : Nat) >>> 23) &&& 0xFF = 127 := by decide
    have hm : (0x3F800000 : Nat) &&& 0x7FFFFF = 0 := by decide
    simp only [decodeF32, hs, he, hm]
    norm_num
  have d2 : decodeF32 0x40000000 = F.fin 2 := by
    have hs : ((0x40000000 : Nat) >>> 31) &&& 1 = 0 := by decide
    have he : ((0x40000000 : Nat) >>> 23) &&& 0xFF = 128 := by decide
    have hm : (0x40000000 : Nat) &&& 0x7FFFFF = 0 := by decide
    simp only [decodeF32, hs, he, hm]
    norm_num
  have d3 : decodeF32 0x40400000 = F.fin 3 := by
    have hs : ((0x40400000 : Nat) >>> 31) &&& 1 = 0 := by decide
    have he : ((0x40400000 : Nat) >>> 23) &&& 0xFF = 128 := by decide
    have hm : (0x40400000 : Nat) &&& 0x7FFFFF = 0x400000 := by decide
    simp only [decodeF32, hs, he, hm]
    norm_num
  have hr1 : List.range 1 = [0] := rfl
  have hp : parseFrames c4Words = some c4Frames := by
    norm_num [c4Words, c4Frames, parseFrames, keyFromWords, List.getD,
      hr1, d0, d1, d2, d3, flt]
  have hr : List.range 4 = [0, 1, 2, 3] := rfl
  have hb : ((9 : Nat) == 7) = false := by decide
  have hu : updateFrames c4Frames = c4Frames := by
    norm_num [updateFrames, c4Frames, hr, scanPrev, List.find?, List.getD, hb]
  refine ⟨?_, ?_, ?_, by norm_num⟩
  · rw [processStreamedClip, hp]
    simp [hu]
  · norm_num [c4Frames]
  · norm_num [calcNextInSlope, feq, fmax, flt, fsub, fadd, fneg, fmul, fdiv]

/-- C4 (amended): frames 0, 1 and the last are untouched, and every key
of any other frame k receives the result of the backward scan over frames
k-1 down to 1 — frame 0 is NEVER examined (conjunct 1); the scan leaves
the parsed inSlope when no frame in 1..k-1 holds a matching key index
(conjunct 2) and otherwise stops at the nearest (largest-index) such
frame, applying calc_next_in_slope with the frame-time difference
(conjunct 3); for a predecessor whose coefficients are not all zero and a
time step already at or above the 1e-4 clamp, that slope is
(3·Δvalue − 2·(outSlope_prev·Δt) − coeff1_prev·Δt²)/Δt (conjunct 4). -/
theorem streamed_inslope_backfill :
    (∀ (frames : List SFrame) (k : Nat) (fr : SFrame),
      2 ≤ k → k ≠ frames.length - 1 → frames[k]? = some fr →
      (updateFrames frames)[k]? = some
        ⟨fr.time, fr.keyList.map (fun ck =>
          ⟨ck.index, ck.coeff, ck.outSlope, ck.value,
           scanPrev frames fr.time ck (k - 1)⟩)⟩) ∧
    (∀ (frames : List SFrame) (tk : F) (ck : SCKey) (j : Nat),
      (∀ fI pf, 1 ≤ fI → fI ≤ j → frames[fI]? = some pf →
        pf.keyList.find? (fun x => x.index == ck.index) = none) →
      scanPrev frames tk ck j = ck.inSlope) ∧
    (∀ (frames : List SFrame) (tk : F) (ck : SCKey) (j fM : Nat)
        (pf : SFrame) (pk : SCKey),
      1 ≤ fM → fM ≤ j → frames[fM]? = some pf →
      pf.keyList.find? (fun x => x.index == ck.index) = some pk →
      (∀ fI qf, fM < fI → fI ≤ j → frames[fI]? = some qf →
        qf.keyList.find? (fun x => x.index == ck.index) = none) →
      scanPrev frames tk ck j = calcNextInSlope pk (fsub tk pf.time) ck) ∧
    (∀ (ck rhs : SCKey) (c0 c1 c2 os v rv dx : ℚ),
      ck.coeff = [.fin c0, .fin c1, .fin c2] →
      ¬(c0 = 0 ∧ c1 = 0 ∧ c2 = 0) →
      ck.outSlope = .fin os → ck.value = .fin v → rhs.value = .fin rv →
      1 / 10000 ≤ dx →
      calcNextInSlope ck (.fin dx) rhs =
        .fin ((3 * (rv - v) - 2 * (os * dx) - c1 * (dx * dx)) / dx)) := by
  refine ⟨?_, ?_, ?_, ?_⟩
  · intro frames k fr hk2 hkl hget
    have hklen : k < frames.length := by
      by_contra hcon
      push_neg at hcon
      rw [List.getElem?_eq_none hcon] at hget
      cases hget
    have hcond : ¬(k < 2 ∨ k = frames.length - 1) := by
      push_neg
      exact ⟨by omega, hkl⟩
    have hfr : frames.getD k ⟨.fin 0, []⟩ = fr := by
      simp [List.getD_eq_getElem?_getD, hget]
    simp [updateFrames, List.getElem?_map, List.getElem?_range hklen,
      hcond, hfr, hget]
  · intro frames tk ck j
    induction j with
    | zero => intro _; rfl
    | succ n ih =>
      intro h
      have hnone : (frames.getD (n + 1) ⟨.fin 0, []⟩).keyList.find?
          (fun x => x.index == ck.index) = none := by
        cases hc : frames[n + 1]? with
        | none => simp [List.getD_eq_getElem?_getD, hc]
        | some pf =>
          have h2 := h (n + 1) pf (by omega) (le_refl _) hc
          simp [List.getD_eq_getElem?_getD, hc, h2]
      simp only [scanPrev, hnone]
      exact ih (fun fI pf h1 h2 hp2 => h fI pf h1 (by omega) hp2)
  · intro frames tk ck j
    induction j with
    | zero =>
      intro fM pf pk h1 h2 _ _ _
      exact absurd (le_trans h1 h2) (by norm_num)
    | succ n ih =>
      intro fM pf pk h1 h2 hget hfind hlater
      by_cases hM : fM = n + 1
      · subst hM
        have hD : frames.getD (n + 1) ⟨.fin 0, []⟩ = pf := by
          simp [List.getD_eq_getElem?_getD, hget]
        simp only [scanPrev, hD, hfind]
      · have hle : fM ≤ n := by omega
        have hnone : (frames.getD (n + 1) ⟨.fin 0, []⟩).keyList.find?
            (fun x => x.index == ck.index) = none := by
          cases hc : frames[n + 1]? with
          | none => simp [List.getD_eq_getElem?_getD, hc]
          | some qf =>
            have h2 := hlater (n + 1) qf (by omega) (le_refl _) hc
            simp [List.getD_eq_getElem?_getD, hc, h2]
        simp only [scanPrev, hnone]
        exact ih fM pf pk h1 hle hget hfind
          (fun fI qf ha hb hc2 => hlater fI qf ha (by omega) hc2)
  · intro ck rhs c0 c1 c2 os v rv dx hc hnz houts hv hrv hge
    have hdxpos : (0 : ℚ) < dx := lt_of_lt_of_le (by norm_num) hge
    have hdxne : dx ≠ 0 := ne_of_gt hdxpos
    have hdd : dx * dx ≠ 0 := mul_ne_zero hdxne hdxne
    have hinv : (1 : ℚ) / (dx * dx) ≠ 0 := one_div_ne_zero hdd
    have hguard : (feq (ck.coeff.getD 0 .nan) (.fin 0) &&
        feq (ck.coeff.getD 1 .nan) (.fin 0) &&
        feq (ck.coeff.getD 2 .nan) (.fin 0)) = false := by
      rw [hc]
      simp [List.getD, feq]
      tauto
    have hmax : fmax (.fin dx) (.fin (1 / 10000)) = .fin dx := by
      rw [fmax, if_neg]
      simp only [flt, decide_eq_true_eq, not_lt]
      exact hge
    unfold calcNextInSlope
    rw [hguard]
    simp only [Bool.false_eq_true, if_false, hmax]
    rw [hc, houts, hv, hrv]
    simp [fsub, fadd, fneg, fmul, fdiv, hdd, hinv, hdxne, List.getD]
    field_simp
    ring

/-- Witness for streamed_inslope_backfill: in a four-frame clip whose
index-7 key appears in frames 1 and 2, the scan from frame 2 stops at
frame 1 and back-solves with the time difference of the two frames. -/
theorem streamed_inslope_backfill_witness :
    scanPrev
      [⟨.fin 0, []⟩,
       ⟨.fin 1, [⟨7, [.fin 0, .fin 1, .fin 0], .fin 0, .fin 0, .fin 0⟩]⟩,
       ⟨.fin 2, [⟨7, [.fin 0, .fin 1, .fin 0], .fin 0, .fin 1, .fin 0⟩]⟩,
       ⟨.fin 3, []⟩]
      (.fin 2) ⟨7, [.fin 0, .fin 1, .fin 0], .fin 0, .fin 1, .fin 0⟩ 1 =
    calcNextInSlope ⟨7, [.fin 0, .fin 1, .fin 0], .fin 0, .fin 0, .fin 0⟩
      (fsub (.fin 2) (.fin 1))
      ⟨7, [.fin 0, .fin 1, .fin 0], .fin 0, .fin 1, .fin 0⟩ := by
  have h := streamed_inslope_backfill.2.2.1
    [⟨.fin 0, []⟩,
     ⟨.fin 1, [⟨7, [.fin 0, .fin 1, .fin 0], .fin 0, .fin 0, .fin 0⟩]⟩,
     ⟨.fin 2, [⟨7, [.fin 0, .fin 1, .fin 0], .fin 0, .fin 1, .fin 0⟩]⟩,
     ⟨.fin 3, []⟩]
    (.fin 2) ⟨7, [.fin 0, .fin 1, .fin 0], .fin 0, .fin 1, .fin 0⟩ 1 1
    ⟨.fin 1, [⟨7, [.fin 0, .fin 1, .fin 0], .fin 0, .fin 0, .fin 0⟩]⟩
    ⟨7, [.fin 0, .fin 1, .fin 0], .fin 0, .fin 0, .fin 0⟩
    (le_refl 1) (le_refl 1) rfl rfl
    (fun fI qf ha hb _ => absurd (lt_of_lt_of_le ha hb) (lt_irrefl 1))
  exact h

/-- Inserting a pair never removes another key already present: the
replace branch rewrites the matching pair in place, the append branch
keeps the old pairs. -/
theorem dinsert_preserves_key (m : List (String × String)) (k v k2 : String)
    (h : m.any (fun p => p.1 == k2) = true) :
    (dinsert m k v).any (fun p => p.1 == k2) = true := by
  rw [dinsert]
  split
  · rcases List.any_eq_true.mp h with ⟨p, hp, hpk⟩
    apply List.any_eq_true.mpr
    by_cases hk : (p.1 == k) = true
    · refine ⟨(k, v), List.mem_map.mpr ⟨p, hp, by simp [hk]⟩, ?_⟩
      have e1 : p.1 = k2 := by simpa using hpk
      have e2 : p.1 = k := by simpa using hk
      simp [← e1, ← e2]
    · refine ⟨p, List.mem_map.mpr ⟨p, hp, by simp [hk]⟩, hpk⟩
  · rw [List.any_append, h]
    rfl

/-- C8 (amended): the moc3 name-table loop processes exactly the slots
with strictly more than 64 bytes left before the table's end address —
every slot except the last of each table — and, for each processed slot,
inserts the slot's name under the decimal CRC32 string of the raw name
and under that of the prefixed name (conjuncts 1 and 2); each insertion
puts the (key, name) pair in the map (conjunct 3), and a recorded key is
still present in the final map after the remaining slots are processed
(conjunct 4). -/
theorem moc3_slot_characterization :
    (∀ (buf : Bytes) (endAddr : Nat) (pre : Bytes) (cursor : Nat)
        (m : List (String × String)) (name : Bytes),
      64 < endAddr - cursor → string0At buf cursor = some name →
      moc3Loop buf endAddr pre cursor m =
        moc3Loop buf endAddr pre (cursor + 64)
          (dinsert (dinsert m (toString (crc32 name)) (asStr name))
            (toString (crc32 (pre ++ name))) (asStr name))) ∧
    (∀ (buf : Bytes) (endAddr : Nat) (pre : Bytes) (cursor : Nat)
        (m : List (String × String)),
      ¬(64 < endAddr - cursor) →
      moc3Loop buf endAddr pre cursor m = m) ∧
    (∀ (m : List (String × String)) (k v : String),
      (dinsert m k v).any (fun p => p.1 == k && p.2 == v) = true) ∧
    (∀ (buf : Bytes) (endAddr : Nat) (pre : Bytes) (cursor : Nat)
        (m : List (String × String)) (k : String),
      m.any (fun p => p.1 == k) = true →
      (moc3Loop buf endAddr pre cursor m).any (fun p => p.1 == k) = true) := by
  refine ⟨?_, ?_, ?_, ?_⟩
  · intro buf endAddr pre cursor m name hcond hs
    rw [moc3Loop, if_pos hcond, hs]
  · intro buf endAddr pre cursor m hcond
    rw [moc3Loop, if_neg hcond]
  · intro m k v
    rw [dinsert]
    split
    · rename_i hm
      rcases List.any_eq_true.mp hm with ⟨p, hp, hpk⟩
      apply List.any_eq_true.mpr
      exact ⟨(k, v), List.mem_map.mpr ⟨p, hp, by simp [hpk]⟩, by simp⟩
    · rw [List.any_append]
      simp
  · intro buf endAddr pre cursor m k
    have main : ∀ (n cursor : Nat) (m : List (String × String)),
        endAddr - cursor = n → m.any (fun p => p.1 == k) = true →
        (moc3Loop buf endAddr pre cursor m).any (fun p => p.1 == k) = true := by
      intro n
      induction n using Nat.strong_induction_on with
      | _ n ih =>
        intro cursor m hn hm
        by_cases hcond : 64 < endAddr - cursor
        · cases hs : string0At buf cursor with
          | none => rw [moc3Loop, if_pos hcond, hs]; exact hm
          | some name =>
            rw [moc3Loop, if_pos hcond, hs]
            refine ih (endAddr - (cursor + 64)) (by omega) (cursor + 64) _
              rfl ?_
            exact dinsert_preserves_key _ _ _ _
              (dinsert_preserves_key _ _ _ _ hm)
        · rw [moc3Loop, if_neg hcond]; exact hm
    exact main (endAddr - cursor) cursor m rfl

/-- Witness for moc3_slot_characterization: a slot with 70 bytes of table
left is processed and records both hash keys for its name. -/
theorem moc3_slot_characterization_witness :
    moc3Loop [65, 0] 70 [66] 0 [] =
      moc3Loop [65, 0] 70 [66] 64
        (dinsert (dinsert [] (toString (crc32 [65])) (asStr [65]))
          (toString (crc32 ([66] ++ [65]))) (asStr [65])) :=
  moc3_slot_characterization.1 [65, 0] 70 [66] 0 [] [65]
    (by decide) (by decide)

set_option maxRecDepth 20000 in
/-- C8 (counterexample): in a moc3 whose parts table spans exactly two
64-byte slots (names AAA and BBB), the resolver records the two CRC32
keys of AAA only; the final slot fails the strict greater-than-64 check
(end - cursor = 64 there) and BBB gets no entries, refuting the claim
for the last slot of a table. -/
theorem moc3_last_slot_skipped :
    (extractParamsIds moc3Cex).map (fun m => m.map (fun p => p.2)) =
      some ["AAA", "AAA"] ∧
    (extractParamsIds moc3Cex).map (fun m => m.map (fun p => p.1)) =
      some [toString (crc32 [65, 65, 65]),
            toString (crc32 (partsPre ++ [65, 65, 65]))] ∧
    (extractParamsIds moc3Cex).map (fun m =>
        m.any (fun p => p.1 == toString (crc32 [66, 66, 66]))) =
      some false := by
  have hd1 : readLE moc3Cex 0x4C 4 = some 0x110 := by decide
  have hd2 : readLE moc3Cex 0x50 4 = some 0x190 := by decide
  have hd3 : readLE moc3Cex 0x108 4 = some 0x190 := by decide
  have hd4 : readLE moc3Cex 0x10C 4 = some 0x190 := by decide
  have hA : string0At moc3Cex 0x110 = some [65, 65, 65] := by decide
  have hstop : ∀ m, moc3Loop moc3Cex 0x190 paramsPre 0x190 m = m := by
    intro m
    rw [moc3Loop, if_neg (by norm_num)]
  have hparts : moc3Loop moc3Cex 0x190 partsPre 0x110 [] =
      dinsert (dinsert [] (toString (crc32 [65, 65, 65]))
          (asStr [65, 65, 65]))
        (toString (crc32 (partsPre ++ [65, 65, 65]))) (asStr [65, 65, 65]) := by
    unfold moc3Loop
    rw [if_pos (by norm_num : (64 : Nat) < 0x190 - 0x110), hA]
    unfold moc3Loop
    rw [if_neg (by norm_num : ¬((64 : Nat) < 0x190 - (0x110 + 64)))]
  have hmain : extractParamsIds moc3Cex =
      some (dinsert (dinsert [] (toString (crc32 [65, 65, 65]))
          (asStr [65, 65, 65]))
        (toString (crc32 (partsPre ++ [65, 65, 65]))) (asStr [65, 65, 65])) := by
    rw [extractParamsIds, hd1, hd2, hd3, hd4]
    show some (moc3Loop moc3Cex 0x190 paramsPre 0x190
        (moc3Loop moc3Cex 0x190 partsPre 0x110 [])) = _
    rw [hparts, hstop]
  rw [hmain]
  refine ⟨by decide, by decide, by decide⟩

/-- C2: the simplified USM reader does NOT reproduce the general
reader's rows.  On a well-formed table named T (byte 0x54) with a single
constant 1-byte field named F (byte 0x46) holding 7 and one row, the
general reader produces the row mapping F to 7, but get_utf_table stores
the constant under the TABLE name (constants[name] = field_val, with the
freshly read field_name discarded) and produces T mapping to 7; the
field name F is absent from its row, so the two row sequences differ. -/
theorem utf_readers_disagree :
    utfParse c2Buf = some ⟨[0x54], [[([0x46], .i 7)]]⟩ ∧
    getUtfTable c2Buf = some [[([0x54], .i 7)]] ∧
    (getUtfTable c2Buf).map
        (fun rows => rows.map (fun r => r.any (fun p => p.1 == [0x46]))) =
      some [false] ∧
    ¬((utfParse c2Buf).map (fun t => t.rows) = getUtfTable c2Buf) := by
  refine ⟨by decide, by decide, by decide, by decide⟩

end SLU
